import Mathlib

/-!
Verification of the data-wrangling pipeline (src/src/data_wrangling.py).

The pipeline operates on pandas DataFrames. A frame is modelled
column-oriented: a row index (the list of row labels) together with an
ordered association list from column label to column; a column carries its
pandas dtype tag and its cells in row order. A cell is `Option String`
(`none` models a pandas missing value, NaN). Frames produced by this
program have pairwise-distinct column labels; theorems that need this
state it as a hypothesis.

Modelling conventions, shared by all operations below:
- pandas enumerates distinct labels in sorted order (`unstack`, `groupby`)
  or in order of first appearance (`Series.unique`); the embedding uses
  `List.dedup`, which enumerates the same distinct values. Every property
  verified here is insensitive to enumeration order.
- pandas handling of missing id/key labels is version dependent (grouping
  drops NaN groups, old `unstack` drops NaN codes); the embedding treats a
  missing label as an ordinary label, and every theorem about the reshape
  assumes the id and key cells are present.
- a Python exception that the source catches is modelled by `none`; the
  reshape alone has an uncaught error path (its merge line sits outside
  the try/except), so it returns a three-way outcome, `PreResult`.
-/

set_option autoImplicit false

namespace OneDot

/-- A cell of a pandas frame: `none` models a missing value (NaN). -/
abbrev Cell := Option String

/-- A column: its pandas dtype tag and its cells, in row order. -/
structure Column where
  dtype : String
  cells : List Cell
deriving Repr, DecidableEq

/-- Model of a pandas DataFrame: the row index (its labels, in row order)
and an ordered association list from column label to column. -/
structure DF where
  index : List Cell
  cols : List (String × Column)
deriving Repr, DecidableEq

/-- Label of the column created by the pivot for key value `k`; a missing
key would surface as the label NaN, which prints as nan. Theorems about
the reshape assume key cells are present, so this default is never the
deciding case. -/
def cellLabel (k : Cell) : String := k.getD "nan"

/-- First non-missing cell of a list: the value `GroupBy.first` computes
(it skips missing values); `none` when every cell is missing. -/
def firstPresent : List Cell → Cell
  | [] => none
  | none :: cs => firstPresent cs
  | some v :: _ => some v

/-- Cells of a column restricted to the rows whose id cell equals `i`,
in row order; `ids` and `cs` are the id column and the inspected column. -/
def cellsOfId (ids cs : List Cell) (i : Cell) : List Cell :=
  (ids.zip cs).filterMap (fun q => if q.1 = i then some q.2 else none)

/-- Columns built by `df.set_index([id, key])[value].unstack()`: one
column per distinct key value, holding for each distinct id the value
cell of the row carrying that (id, key) pair (missing when the id lacks
the key). -/
def pivotCols (idCol keyCol valCol : Column) : List (String × Column) :=
  keyCol.cells.dedup.map (fun k =>
    (cellLabel k,
     ⟨"object", idCol.cells.dedup.map (fun i =>
       (((idCol.cells.zip keyCol.cells).zip valCol.cells).lookup (i, k)).join)⟩))

/-- Columns built by
`df.loc[:, ~df.columns.isin([key, value])].groupby(id).first()`: every
input column other than the key, value and id columns reduced, per
distinct id, to its first non-missing cell in that id group. -/
def carryCols (df : DF) (key value id : String) (idCol : Column) : List (String × Column) :=
  (df.cols.filter (fun p => p.1 ≠ key ∧ p.1 ≠ value ∧ p.1 ≠ id)).map (fun p =>
    (p.1, ⟨p.2.dtype,
      idCol.cells.dedup.map (fun i => firstPresent (cellsOfId idCol.cells p.2.cells i))⟩))

/-- Column block of `df1.merge(df2, on=id)`: left columns then right
columns, a data label present on both sides being suffixed _x on the left
and _y on the right. -/
def mergeFrames (l r : List (String × Column)) : List (String × Column) :=
  l.map (fun p => (if p.1 ∈ r.map Prod.fst then p.1 ++ "_x" else p.1, p.2))
    ++ r.map (fun p => (if p.1 ∈ l.map Prod.fst then p.1 ++ "_y" else p.1, p.2))

/-- Outcome of a `pre_processing` call. The try block covers only the
unstack and groupby lines; the merge sits in the `else:` block
(src/src/data_wrangling.py, line 40), so its exceptions are NOT caught:
- `table w`: the merged wide frame was returned;
- `caught`: an exception inside the try block was caught and logged and
  the function fell through, returning nothing;
- `raised`: the merge raised outside the try/except and the exception
  propagates to the caller. -/
inductive PreResult where
  | table (w : DF)
  | caught
  | raised
deriving Repr, DecidableEq

/-- Returned frame of a `pre_processing` outcome, when one is returned. -/
def PreResult.frame : PreResult → Option DF
  | PreResult.table w => some w
  | _ => none

/-- Shallow embedding of `pre_processing` (src/src/data_wrangling.py,
lines 17-40). `df.set_index([id, key])[value].unstack()` pivots the key
column into column labels (`pivotCols`) and raises when an (id, key) pair
repeats; the groupby line keeps the first non-missing cell per id group
of every remaining column (`carryCols`); both raises are caught inside
the try block (`caught`). The merge `df1.merge(df2, on=id)` then runs in
the `else:` block, OUTSIDE the try/except: pandas resolves the key `id`
on each side, and when the pivoted frame holds a data column labelled
`id` — a distinct key value equal to the id column name — next to its
`id` index level, that resolution raises the index-level/column-label
ambiguity ValueError, which propagates uncaught (`raised`); otherwise the
merge — an inner join on two identical id sets — returns the combined
frame (`mergeFrames`, `table`). -/
def pre_processing (df : DF) (key value id : String) : PreResult :=
  match df.cols.lookup id, df.cols.lookup key, df.cols.lookup value with
  | some idCol, some keyCol, some valCol =>
    if (idCol.cells.zip keyCol.cells).Nodup then
      if id ∈ (pivotCols idCol keyCol valCol).map Prod.fst then PreResult.raised
      else
        PreResult.table ⟨idCol.cells.dedup,
          mergeFrames (pivotCols idCol keyCol valCol) (carryCols df key value id idCol)⟩
    else PreResult.caught
  | _, _, _ => PreResult.caught

/-- Cell of a wide frame in column `n` at the row labelled `i`: `none`
when the column or the label is absent (`w.loc[i, n]`, for the frames at
hand, whose indexes carry no duplicate labels). -/
def wideCell (w : DF) (n : String) (i : Cell) : Option Cell :=
  (w.cols.lookup n).bind (fun c => (w.index.zip c.cells).lookup i)

/-- Column assignment `df[n] = c`: pandas replaces the column in place
when the label exists and appends a new column at the end otherwise. -/
def setCol (df : DF) (n : String) (c : Column) : DF :=
  if (df.cols.lookup n).isSome then
    ⟨df.index, df.cols.map (fun p => if p.1 = n then (n, c) else p)⟩
  else
    ⟨df.index, df.cols ++ [(n, c)]⟩

/-- Column removal `df.drop(columns=n, inplace=True)`. -/
def dropCol (df : DF) (n : String) : DF :=
  ⟨df.index, df.cols.filter (fun p => p.1 ≠ n)⟩

/-- Element action of `Series.map(d).fillna(fill)`: a value found in the
dict goes to its target; a value absent from the dict — a missing value
included — goes to NaN and is then replaced by `fill`. -/
def transMap (d : List (String × String)) (fill : String) : Cell → Cell
  | none => some fill
  | some v =>
    match d.lookup v with
    | some t => some t
    | none => some fill

/-- Shallow embedding of `translate` (src/src/data_wrangling.py, lines
43-70). The parsed translation file is passed as `trans`; `none` stands
for the exception paths of `open`/`json.load` (file absent or malformed).
The line `df[col] = df[col].map(d).fillna(fill)` applies `transMap` to
every cell and assigns the resulting object-dtype column back to `col`,
mutating the frame, which is then returned. On any exception the function
falls through and returns nothing; the right-hand side is fully evaluated
before the assignment, so a failing call leaves the frame untouched (see
`translatePost`). -/
def translate (df : DF) (col : String) (trans : Option (List (String × String)))
    (fill : String) : Option DF :=
  match trans with
  | none => none
  | some d =>
    match df.cols.lookup col with
    | none => none
    | some c =>
      some (setCol df col ⟨"object", c.cells.map (transMap d fill)⟩)

/-- State of the caller's frame object after `translate` returns: the
single column assignment either happens in full (success, and the mutated
frame is also the returned one) or not at all (its right-hand side raised
first). -/
def translatePost (df : DF) (col : String) (trans : Option (List (String × String)))
    (fill : String) : DF :=
  (translate df col trans fill).getD df

/-- Third element of a column-specification entry: a value transform
(`none` models a transform that raises, e.g. `.upper()` on a float NaN)
when a source column is named, a literal default when none is. -/
inductive NormThird where
  | transform (f : Cell → Option Cell)
  | lit (v : String)

/-- A column-specification entry of `normalize`: Python lists
`[source, type]` and `[source, type, extra]`, keyed by target name. -/
structure NormEntry where
  source : Option String
  dtype : String
  third : Option NormThird

/-- Dtype cast `series.astype(tag)`. The casts this program performs on
the verified paths (category, O, object) keep the cell values and change
only the dtype tag; numeric casts additionally reinterpret the textual
representation and can raise on unparsable values — no claim under
verification exercises one, and a raising transform already covers the
failure analysis. -/
def astype (tag : String) (c : Column) : Column :=
  ⟨tag, c.cells⟩

/-- Model of the line `df[tgt].fillna({tgt: fill}, inplace=True)` closing
every iteration of `normalize`. Accessing `df[tgt]` raises when the
column is absent. The fillna call itself never changes the frame: its
dict argument is keyed by the column name, which `Series.fillna` reads as
a row-index label (row labels here are ids, not column names), and the
inplace call sits on a chained column selection, which pandas does not
write back to the frame. Net effect: error when the target column is
missing, identity otherwise. The `fill` argument is therefore dead; it is
kept to mirror the call. -/
def fillnaLine (df : DF) (tgt : String) (_fill : String) : Option DF :=
  if (df.cols.lookup tgt).isSome then some df else none

/-- One iteration of the `normalize` loop (src/src/data_wrangling.py,
lines 85-100) for the entry `tgt: [source, dtype, third?]`:
- a named source with a transform: `df[old] = df[old].apply(f)` (apply
  visits every element, missing values included, and any exception of `f`
  aborts), then `df[tgt] = df[old].astype(dtype)`, then
  `df.drop(columns=old)` when the names differ;
- a named source without a transform: the cast and conditional drop only;
- no source and a literal: the scalar is broadcast over the rows and cast;
- no source and no third element: no assignment at all — only the closing
  fillna line runs, raising when `tgt` is not an existing column.
A transform in place of a literal (no source) would be broadcast by
pandas as an opaque object, and a literal in place of a transform would
make `apply` raise; neither occurs in this program or in any claim, and
both are mapped to the error path. -/
def normStep (fill : String) (df : DF) (tgt : String) (e : NormEntry) : Option DF :=
  match e.source with
  | some old =>
    match df.cols.lookup old with
    | none => none
    | some oldCol =>
      match e.third with
      | some (NormThird.transform f) =>
        match oldCol.cells.mapM f with
        | none => none
        | some tcells =>
          let d1 := setCol df old ⟨"object", tcells⟩
          let d2 := setCol d1 tgt (astype e.dtype ⟨"object", tcells⟩)
          fillnaLine (if tgt = old then d2 else dropCol d2 old) tgt fill
      | some (NormThird.lit _) => none
      | none =>
        let d2 := setCol df tgt (astype e.dtype oldCol)
        fillnaLine (if tgt = old then d2 else dropCol d2 old) tgt fill
  | none =>
    match e.third with
    | some (NormThird.lit v) =>
      fillnaLine (setCol df tgt (astype e.dtype ⟨"object", List.replicate df.index.length (some v)⟩)) tgt fill
    | some (NormThird.transform _) => none
    | none => fillnaLine df tgt fill

/-- Shallow embedding of `normalize` (src/src/data_wrangling.py, lines
73-105): the entries are processed in order and the first exception ends
the loop, the function falling through and returning nothing. -/
def normalize (df : DF) (spec : List (String × NormEntry)) (fill : String) : Option DF :=
  match spec with
  | [] => some df
  | (t, e) :: rest =>
    match normStep fill df t e with
    | none => none
    | some d => normalize d rest fill

/-- State of the caller's frame object after `normalize` returns: the
frame is mutated entry by entry, so a failing call leaves the mutations
of the successfully processed prefix behind (each single iteration is
all-or-nothing: on the verified paths every raise of an iteration happens
before that iteration's first assignment). -/
def normalizePost (df : DF) (spec : List (String × NormEntry)) (fill : String) : DF :=
  match spec with
  | [] => df
  | (t, e) :: rest =>
    match normStep fill df t e with
    | none => df
    | some d => normalizePost d rest fill

/-- Model of the Python string method upper at the ASCII level:
character-wise upper-casing. -/
def pyUpper (s : String) : String := ⟨s.data.map Char.toUpper⟩

/-- The upper-case transform of the spec example, `lambda x: x.upper()`:
it upper-cases a string and raises on a missing value (a float NaN has no
upper method). -/
def upperTransform : Cell → Option Cell
  | some s => some (some (pyUpper s))
  | none => none

/-- Loop of `get_country_codes` over the distinct location values: the
queries issued to the geocoding collaborator, in order, paired with the
finished name-to-code dict. A missing location cannot be queried (the
geocoder raises on a non-string), and a `none` answer of the collaborator
models both a geocoder error and an unresolvable address (`.raw` on
`None`); either ends the loop with no dict. The country code is
upper-cased as it is stored. -/
def gccLoop (geo : String → Option String) : List Cell → List String × Option (List (Cell × String))
  | [] => ([], some [])
  | c :: cs =>
    match c with
    | none => ([], none)
    | some city =>
      match geo city with
      | none => ([city], none)
      | some code =>
        let r := gccLoop geo cs
        (city :: r.1, r.2.map (fun d => (some city, pyUpper code) :: d))

/-- Shallow embedding of `get_country_codes` (src/src/data_wrangling.py,
lines 108-137), with the geocoding collaborator abstracted as the oracle
`geo`. The dict is built over `df[col].unique()` — one consultation per
distinct value — and `df[col_name] = df[col].map(city_dict)` then adds
the code column in place. Any exception is caught, logged, and the
function falls through, returning nothing; the loop raises before the
assignment, so a failing call leaves the frame untouched. -/
def get_country_codes (geo : String → Option String) (df : DF) (col col_name : String) : Option DF :=
  match df.cols.lookup col with
  | none => none
  | some c =>
    match (gccLoop geo c.cells.dedup).2 with
    | none => none
    | some dict =>
      some (setCol df col_name ⟨"object", c.cells.map (fun cc => dict.lookup cc)⟩)

/-- State of the caller's frame object after `get_country_codes` returns:
mutated in full on success, untouched on failure. -/
def gccPost (geo : String → Option String) (df : DF) (col col_name : String) : DF :=
  (get_country_codes geo df col col_name).getD df

/-! Association-list and list lemmas used throughout. -/

section Lemmas

variable {β γ : Type}

lemma lookup_mem {l : List (String × β)} {n : String} {v : β}
    (h : l.lookup n = some v) : (n, v) ∈ l := by
  induction l with
  | nil => simp [List.lookup] at h
  | cons p l ih =>
    rcases p with ⟨k, w⟩
    rw [List.lookup_cons] at h
    by_cases hk : n = k
    · simp [hk] at h
      simp [hk, h]
    · simp [beq_false_of_ne hk] at h
      exact List.mem_cons_of_mem _ (ih h)

lemma lookup_eq_none_iff (l : List (String × β)) (n : String) :
    l.lookup n = none ↔ n ∉ l.map Prod.fst := by
  induction l with
  | nil => simp [List.lookup]
  | cons p l ih =>
    rcases p with ⟨k, w⟩
    rw [List.lookup_cons]
    by_cases hk : n = k
    · simp [hk]
    · simp [beq_false_of_ne hk, hk, ih]

lemma lookup_append (l₁ l₂ : List (String × β)) (n : String) :
    (l₁ ++ l₂).lookup n =
      match l₁.lookup n with
      | some v => some v
      | none => l₂.lookup n := by
  induction l₁ with
  | nil => rfl
  | cons p l ih =>
    rcases p with ⟨k, w⟩
    by_cases hk : n = k
    · simp [List.lookup_cons, hk]
    · simp only [List.cons_append, List.lookup_cons, beq_false_of_ne hk]
      exact ih

lemma lookup_map_preserve (l : List (String × β)) (g : String → β → γ) (n : String) :
    (l.map (fun p => (p.1, g p.1 p.2))).lookup n = (l.lookup n).map (g n) := by
  induction l with
  | nil => rfl
  | cons p l ih =>
    rcases p with ⟨k, w⟩
    by_cases hk : n = k
    · simp [List.lookup_cons, hk]
    · simp [List.lookup_cons, beq_false_of_ne hk, ih]

lemma lookup_filter_key (l : List (String × β)) (P : String → Bool) (n : String) :
    ((l.filter (fun p => P p.1)).lookup n) = if P n then l.lookup n else none := by
  induction l with
  | nil => simp [List.lookup]
  | cons p l ih =>
    rcases p with ⟨k, w⟩
    by_cases hk : n = k
    · subst hk
      by_cases hP : P n
      · simp [List.filter_cons, hP, List.lookup_cons]
      · simp only [List.filter_cons]
        rw [if_neg (by simpa using hP)]
        simp [ih, hP]
    · by_cases hP : P k
      · simp only [List.filter_cons]
        rw [if_pos (by simpa using hP)]
        rw [List.lookup_cons]
        simp only [beq_false_of_ne hk]
        rw [ih]
        rw [List.lookup_cons]
        simp [beq_false_of_ne hk]
      · simp only [List.filter_cons]
        rw [if_neg (by simpa using hP)]
        rw [ih, List.lookup_cons]
        simp [beq_false_of_ne hk]

lemma setCol_index (df : DF) (n : String) (c : Column) :
    (setCol df n c).index = df.index := by
  unfold setCol
  split <;> rfl

lemma lookup_setEntry (l : List (String × Column)) (n : String) (c : Column)
    (h : (l.lookup n).isSome) :
    (l.map (fun p => if p.1 = n then (n, c) else p)).lookup n = some c := by
  induction l with
  | nil => simp [List.lookup] at h
  | cons p l ih =>
    rcases p with ⟨k, w⟩
    by_cases hk : k = n
    · simp [hk, List.lookup_cons]
    · rw [List.lookup_cons] at h
      simp only [beq_false_of_ne (Ne.symm hk)] at h
      simp only [List.map_cons, if_neg hk, List.lookup_cons,
        beq_false_of_ne (Ne.symm hk)]
      exact ih h

lemma lookup_setCol_self (df : DF) (n : String) (c : Column) :
    (setCol df n c).cols.lookup n = some c := by
  unfold setCol
  by_cases h : (df.cols.lookup n).isSome
  · rw [if_pos h]
    exact lookup_setEntry df.cols n c h
  · rw [if_neg h]
    show (df.cols ++ [(n, c)]).lookup n = some c
    rw [lookup_append]
    rcases hl : df.cols.lookup n with _ | v
    · simp [List.lookup_cons]
    · rw [hl] at h
      simp at h

lemma lookup_setCol_ne (df : DF) {m n : String} (c : Column) (h : n ≠ m) :
    (setCol df m c).cols.lookup n = df.cols.lookup n := by
  unfold setCol
  split
  · show (df.cols.map (fun p => if p.1 = m then (m, c) else p)).lookup n = _
    induction df.cols with
    | nil => rfl
    | cons p l ih =>
      rcases p with ⟨k, w⟩
      by_cases hk : k = m
      · have hf : (if (k, w).1 = m then (m, c) else (k, w)) = (m, c) := by
          simp [hk]
        have hnk : n ≠ k := fun hx => h (hx.trans hk)
        rw [List.map_cons, hf, List.lookup_cons, List.lookup_cons,
          beq_false_of_ne h, beq_false_of_ne hnk]
        exact ih
      · have hf : (if (k, w).1 = m then (m, c) else (k, w)) = (k, w) := by
          simp [hk]
        rw [List.map_cons, hf, List.lookup_cons, List.lookup_cons]
        cases hnk : (n == k)
        · exact ih
        · rfl
  · show (df.cols ++ [(m, c)]).lookup n = _
    rw [lookup_append]
    rcases hl : df.cols.lookup n with _ | v
    · simp [List.lookup_cons, beq_false_of_ne h, hl]
    · rfl

lemma setCol_names_of_isSome (df : DF) (n : String) (c : Column)
    (h : (df.cols.lookup n).isSome) :
    (setCol df n c).cols.map Prod.fst = df.cols.map Prod.fst := by
  unfold setCol
  rw [if_pos h]
  show (df.cols.map _).map Prod.fst = _
  rw [List.map_map]
  apply List.map_congr_left
  intro p _
  by_cases hk : p.1 = n
  · simp [hk]
  · simp [hk]

lemma setCol_names_of_none (df : DF) (n : String) (c : Column)
    (h : df.cols.lookup n = none) :
    (setCol df n c).cols.map Prod.fst = df.cols.map Prod.fst ++ [n] := by
  unfold setCol
  rw [if_neg (by simp [h])]
  simp

lemma setCol_same (df : DF) (n : String) (c : Column)
    (hnames : (df.cols.map Prod.fst).Nodup)
    (h : df.cols.lookup n = some c) :
    setCol df n c = df := by
  unfold setCol
  rw [if_pos (by simp [h])]
  rcases df with ⟨ix, cols⟩
  simp only [DF.mk.injEq, true_and]
  simp only at h hnames
  induction cols with
  | nil => rfl
  | cons p l ih =>
    rcases p with ⟨k, w⟩
    rw [List.lookup_cons] at h
    simp only [List.map_cons, List.nodup_cons] at hnames
    by_cases hk : k = n
    · subst hk
      simp only [beq_self_eq_true] at h
      injection h with h
      subst h
      have hf : (if (k, w).1 = k then (k, w) else (k, w)) = (k, w) := by
        simp
      rw [List.map_cons, hf, List.cons.injEq]
      refine ⟨rfl, ?_⟩
      have hmap : List.map (fun p : String × Column => if p.1 = k then (k, w) else p) l
          = List.map id l := by
        apply List.map_congr_left
        intro q hq
        have hqk : q.1 ≠ k := fun hx => hnames.1 (hx ▸ List.mem_map_of_mem Prod.fst hq)
        simp [hqk]
      rw [hmap, List.map_id]
    · simp only [beq_false_of_ne (Ne.symm hk)] at h
      have hf : (if (k, w).1 = n then (n, c) else (k, w)) = (k, w) := by
        simp [hk]
      rw [List.map_cons, hf, List.cons.injEq]
      exact ⟨rfl, ih hnames.2 h⟩

lemma dropCol_index (df : DF) (n : String) : (dropCol df n).index = df.index := rfl

lemma lookup_dropCol_self (df : DF) (n : String) :
    (dropCol df n).cols.lookup n = none := by
  show ((df.cols.filter _).lookup n) = none
  rw [lookup_filter_key df.cols (fun m => decide (m ≠ n)) n]
  simp

lemma lookup_dropCol_ne (df : DF) {m n : String} (h : n ≠ m) :
    (dropCol df m).cols.lookup n = df.cols.lookup n := by
  show ((df.cols.filter _).lookup n) = _
  rw [lookup_filter_key df.cols (fun x => decide (x ≠ m)) n]
  simp [h]

lemma mapM_option_mem {α : Type} (f : α → Option β) :
    ∀ {l : List α} {l2 : List β}, l.mapM f = some l2 → ∀ b ∈ l2, ∃ a ∈ l, f a = some b := by
  intro l
  induction l with
  | nil =>
    intro l2 h b hb
    simp only [List.mapM_nil, pure, Option.some.injEq] at h
    subst h
    cases hb
  | cons a l ih =>
    intro l2 h b hb
    rw [List.mapM_cons] at h
    rcases hfa : f a with _ | b0 <;> rw [hfa] at h
    · simp [bind, Option.bind] at h
    · rcases hrest : l.mapM f with _ | bs <;> rw [hrest] at h
      · simp [bind, Option.bind, pure] at h
      · simp only [bind, Option.bind, pure, Option.some.injEq] at h
        subst h
        rcases List.mem_cons.mp hb with hb | hb
        · exact ⟨a, List.mem_cons_self a l, hb ▸ hfa⟩
        · rcases ih hrest b hb with ⟨x, hx, hfx⟩
          exact ⟨x, List.mem_cons_of_mem a hx, hfx⟩

lemma firstPresent_eq_some_iff (i : Cell) (v : String) :
    ∀ l : List (Cell × Cell),
      firstPresent (l.filterMap (fun q => if q.1 = i then some q.2 else none)) = some v ↔
        ∃ j, l.get? j = some (i, some v) ∧
          ∀ k, k < j → ∀ cc, l.get? k = some (i, cc) → cc = none := by
  intro l
  induction l with
  | nil =>
    constructor
    · intro h
      simp [firstPresent] at h
    · rintro ⟨j, hj, -⟩
      simp at hj
  | cons q l ih =>
    rcases q with ⟨a, b⟩
    by_cases ha : a = i
    · subst ha
      rcases b with _ | w
      · rw [List.filterMap_cons]
        simp only [if_pos rfl]
        show firstPresent (none :: _) = some v ↔ _
        rw [show firstPresent (none :: (l.filterMap (fun q => if q.1 = a then some q.2 else none)))
            = firstPresent (l.filterMap (fun q => if q.1 = a then some q.2 else none)) from rfl]
        rw [ih]
        constructor
        · rintro ⟨j, hj, hk⟩
          refine ⟨j + 1, by simpa using hj, ?_⟩
          intro k hk1 cc hcc
          cases k with
          | zero =>
            simp only [List.get?_cons_zero, Option.some.injEq, Prod.mk.injEq] at hcc
            exact hcc.2.symm
          | succ k =>
            exact hk k (Nat.lt_of_succ_lt_succ hk1) cc (by simpa using hcc)
        · rintro ⟨j, hj, hk⟩
          cases j with
          | zero =>
            simp only [List.get?_cons_zero, Option.some.injEq, Prod.mk.injEq] at hj
            exact absurd hj.2 (by simp)
          | succ j =>
            refine ⟨j, by simpa using hj, ?_⟩
            intro k hk1 cc hcc
            exact hk (k + 1) (Nat.succ_lt_succ hk1) cc (by simpa using hcc)
      · rw [List.filterMap_cons]
        simp only [if_pos rfl]
        show firstPresent (some w :: _) = some v ↔ _
        rw [show firstPresent (some w :: (l.filterMap (fun q => if q.1 = a then some q.2 else none)))
            = some w from rfl]
        constructor
        · intro h
          injection h with h
          subst h
          exact ⟨0, rfl, fun k hk cc hcc => absurd hk (Nat.not_lt_zero k)⟩
        · rintro ⟨j, hj, hk⟩
          cases j with
          | zero =>
            simp only [List.get?_cons_zero, Option.some.injEq, Prod.mk.injEq] at hj
            exact congrArg some hj.2
          | succ j =>
            have := hk 0 (Nat.succ_pos j) (some w) rfl
            simp at this
    · rw [List.filterMap_cons]
      simp only [if_neg ha]
      rw [ih]
      constructor
      · rintro ⟨j, hj, hk⟩
        refine ⟨j + 1, by simpa using hj, ?_⟩
        intro k hk1 cc hcc
        cases k with
        | zero =>
          simp only [List.get?_cons_zero, Option.some.injEq, Prod.mk.injEq] at hcc
          exact absurd hcc.1 ha
        | succ k =>
          exact hk k (Nat.lt_of_succ_lt_succ hk1) cc (by simpa using hcc)
      · rintro ⟨j, hj, hk⟩
        cases j with
        | zero =>
          simp only [List.get?_cons_zero, Option.some.injEq, Prod.mk.injEq] at hj
          exact absurd hj.1 ha
        | succ j =>
          refine ⟨j, by simpa using hj, ?_⟩
          intro k hk1 cc hcc
          exact hk (k + 1) (Nat.succ_lt_succ hk1) cc (by simpa using hcc)

lemma lookup_zip_map (l : List Cell) (f : Cell → Cell) (i : Cell) (h : i ∈ l) :
    (l.zip (l.map f)).lookup i = some (f i) := by
  induction l with
  | nil => cases h
  | cons a l ih =>
    by_cases ha : i = a
    · subst ha
      simp [List.lookup_cons]
    · rcases List.mem_cons.mp h with h' | h'
      · exact absurd h' ha
      · simp only [List.map_cons, List.zip_cons_cons, List.lookup_cons,
          beq_false_of_ne ha]
        exact ih h'

lemma gccLoop_none_of_mem_some {geo : String → Option String} {l : List Cell} {v : String}
    (hv : some v ∈ l) (hg : geo v = none) : (gccLoop geo l).2 = none := by
  induction l with
  | nil => cases hv
  | cons c cs ih =>
    rcases c with _ | city
    · rfl
    · rcases hgc : geo city with _ | code
      · simp [gccLoop, hgc]
      · rcases List.mem_cons.mp hv with h | h
        · injection h with h
          rw [h] at hg
          rw [hg] at hgc
          cases hgc
        · simp [gccLoop, hgc, ih h]

lemma gccLoop_none_of_mem_none {geo : String → Option String} {l : List Cell}
    (hv : (none : Cell) ∈ l) : (gccLoop geo l).2 = none := by
  induction l with
  | nil => cases hv
  | cons c cs ih =>
    rcases c with _ | city
    · rfl
    · rcases List.mem_cons.mp hv with h | h
      · cases h
      · rcases hgc : geo city with _ | code
        · simp [gccLoop, hgc]
        · simp [gccLoop, hgc, ih h]

lemma gccLoop_dict_lookup {geo : String → Option String} :
    ∀ {l : List Cell} {dict : List (Cell × String)}, (gccLoop geo l).2 = some dict →
      ∀ v, some v ∈ l → ∃ code, geo v = some code ∧ dict.lookup (some v) = some (pyUpper code) := by
  intro l
  induction l with
  | nil =>
    intro dict _ v hv
    cases hv
  | cons c cs ih =>
    intro dict h v hv
    rcases c with _ | city
    · cases h
    · rcases hgc : geo city with _ | code
      · rw [show (gccLoop geo (some city :: cs)).2 = none by simp [gccLoop, hgc]] at h
        cases h
      · rw [show (gccLoop geo (some city :: cs)).2
            = ((gccLoop geo cs).2).map (fun d => (some city, pyUpper code) :: d) by
          simp [gccLoop, hgc]] at h
        rcases hrest : (gccLoop geo cs).2 with _ | dict0 <;> rw [hrest] at h
        · cases h
        · simp only [Option.map_some', Option.some.injEq] at h
          subst h
          rcases List.mem_cons.mp hv with h | h
          · injection h with h
            subst h
            exact ⟨code, hgc, by simp [List.lookup_cons]⟩
          · rcases ih hrest v h with ⟨code2, hg2, hl2⟩
            by_cases hvc : v = city
            · subst hvc
              rw [hgc] at hg2
              injection hg2 with hg2
              subst hg2
              exact ⟨code, hgc, by simp [List.lookup_cons]⟩
            · refine ⟨code2, hg2, ?_⟩
              rw [List.lookup_cons]
              have : ((some v : Cell) == (some city : Cell)) = false := by
                simp [hvc]
              rw [this]
              exact hl2

lemma gccLoop_queries_of_some {geo : String → Option String} :
    ∀ {l : List Cell} {dict : List (Cell × String)}, (gccLoop geo l).2 = some dict →
      (gccLoop geo l).1 = l.filterMap (fun x => x) := by
  intro l
  induction l with
  | nil => intro dict _; rfl
  | cons c cs ih =>
    intro dict h
    rcases c with _ | city
    · cases h
    · rcases hgc : geo city with _ | code
      · rw [show (gccLoop geo (some city :: cs)).2 = none by simp [gccLoop, hgc]] at h
        cases h
      · rw [show (gccLoop geo (some city :: cs)).2
            = ((gccLoop geo cs).2).map (fun d => (some city, pyUpper code) :: d) by
          simp [gccLoop, hgc]] at h
        rcases hrest : (gccLoop geo cs).2 with _ | dict0 <;> rw [hrest] at h
        · cases h
        · rw [show (gccLoop geo (some city :: cs)).1 = city :: (gccLoop geo cs).1 by
            simp [gccLoop, hgc]]
          rw [ih hrest, List.filterMap_cons]

lemma char_ofNat_toNat_of_lt {n : Nat} (h : n < 55296) : (Char.ofNat n).toNat = n := by
  unfold Char.ofNat
  rw [dif_pos (Or.inl h)]
  rfl

lemma toUpper_toNat_not_lower (c : Char) :
    ¬(97 ≤ (Char.toUpper c).toNat ∧ (Char.toUpper c).toNat ≤ 122) := by
  unfold Char.toUpper
  by_cases h : 97 ≤ c.toNat ∧ c.toNat ≤ 122
  · simp only [ge_iff_le]
    rw [if_pos h, char_ofNat_toNat_of_lt (by omega)]
    omega
  · simp only [ge_iff_le]
    rw [if_neg h]
    exact h

lemma charToUpper_idem (c : Char) : c.toUpper.toUpper = c.toUpper := by
  have h := toUpper_toNat_not_lower c
  conv_lhs => rw [show ∀ d : Char,
    d.toUpper = if 97 ≤ d.toNat ∧ d.toNat ≤ 122 then Char.ofNat (d.toNat - 32) else d
    from fun d => rfl]
  rw [if_neg h]

lemma pyUpper_idem (s : String) : pyUpper (pyUpper s) = pyUpper s := by
  show (⟨(s.data.map Char.toUpper).map Char.toUpper⟩ : String) = ⟨s.data.map Char.toUpper⟩
  rw [List.map_map]
  congr 1
  apply List.map_congr_left
  intro a _
  exact charToUpper_idem a

lemma fillnaLine_of_isSome {df : DF} {tgt fill : String}
    (h : (df.cols.lookup tgt).isSome) : fillnaLine df tgt fill = some df := by
  unfold fillnaLine
  rw [if_pos h]

lemma normalize_cons {df out : DF} {t : String} {e : NormEntry}
    {rest : List (String × NormEntry)} {fill : String} :
    normalize df ((t, e) :: rest) fill = some out ↔
      ∃ mid, normStep fill df t e = some mid ∧ normalize mid rest fill = some out := by
  show (match normStep fill df t e with
        | none => none
        | some d => normalize d rest fill) = some out ↔ _
  rcases hstep : normStep fill df t e with _ | mid
  · simp
  · simp

lemma normalizePost_cons {df : DF} {t : String} {e : NormEntry}
    {rest : List (String × NormEntry)} {fill : String} :
    normalizePost df ((t, e) :: rest) fill =
      match normStep fill df t e with
      | none => df
      | some d => normalizePost d rest fill := rfl

lemma normStep_source_transform {fill : String} {df : DF} {tgt src dty : String}
    {f : Cell → Option Cell} :
    normStep fill df tgt ⟨some src, dty, some (NormThird.transform f)⟩ =
      match df.cols.lookup src with
      | none => none
      | some oldCol =>
        match oldCol.cells.mapM f with
        | none => none
        | some tcells =>
          fillnaLine
            (if tgt = src then setCol (setCol df src ⟨"object", tcells⟩) tgt ⟨dty, tcells⟩
             else dropCol (setCol (setCol df src ⟨"object", tcells⟩) tgt ⟨dty, tcells⟩) src)
            tgt fill := rfl

lemma normStep_source_plain {fill : String} {df : DF} {tgt src dty : String} :
    normStep fill df tgt ⟨some src, dty, none⟩ =
      match df.cols.lookup src with
      | none => none
      | some oldCol =>
        fillnaLine
          (if tgt = src then setCol df tgt ⟨dty, oldCol.cells⟩
           else dropCol (setCol df tgt ⟨dty, oldCol.cells⟩) src)
          tgt fill := rfl

lemma pivotCols_names (idCol keyCol valCol : Column) :
    (pivotCols idCol keyCol valCol).map Prod.fst = keyCol.cells.dedup.map cellLabel := by
  unfold pivotCols
  rw [List.map_map]
  rfl

lemma carryCols_names (df : DF) (key value id : String) (idCol : Column) :
    (carryCols df key value id idCol).map Prod.fst
      = (df.cols.map Prod.fst).filter (fun m => m ≠ key ∧ m ≠ value ∧ m ≠ id) := by
  unfold carryCols
  rw [List.map_map, List.filter_map]
  rfl

lemma mergeFrames_no_overlap (l r : List (String × Column))
    (h : ∀ n ∈ l.map Prod.fst, n ∉ r.map Prod.fst) :
    mergeFrames l r = l ++ r := by
  unfold mergeFrames
  congr 1
  · have : l.map (fun p => (if p.1 ∈ r.map Prod.fst then p.1 ++ "_x" else p.1, p.2))
        = l.map id := by
      apply List.map_congr_left
      intro p hp
      have hn : p.1 ∉ r.map Prod.fst := h p.1 (List.mem_map_of_mem Prod.fst hp)
      simp [hn]
    rw [this, List.map_id]
  · have : r.map (fun p => (if p.1 ∈ l.map Prod.fst then p.1 ++ "_y" else p.1, p.2))
        = r.map id := by
      apply List.map_congr_left
      intro p hp
      have hn : p.1 ∉ l.map Prod.fst := by
        intro hmem
        exact h p.1 hmem (List.mem_map_of_mem Prod.fst hp)
      simp [hn]
    rw [this, List.map_id]

lemma pivot_carry_names_disjoint (df : DF) (key value id : String)
    (idCol keyCol valCol : Column)
    (hdisj : ∀ k ∈ keyCol.cells, ∀ p ∈ df.cols,
      p.1 ≠ key → p.1 ≠ value → p.1 ≠ id → cellLabel k ≠ p.1) :
    ∀ n ∈ (pivotCols idCol keyCol valCol).map Prod.fst,
      n ∉ (carryCols df key value id idCol).map Prod.fst := by
  rw [pivotCols_names, carryCols_names]
  intro n hn hmem
  rcases List.mem_map.mp hn with ⟨k, hk, rfl⟩
  rcases List.mem_filter.mp hmem with ⟨hin, hpred⟩
  rcases List.mem_map.mp hin with ⟨p, hp, hp1⟩
  simp only [decide_eq_true_eq] at hpred
  exact hdisj k (List.mem_dedup.mp hk) p hp
    (hp1.symm ▸ hpred.1) (hp1.symm ▸ hpred.2.1) (hp1.symm ▸ hpred.2.2) hp1.symm

lemma pre_processing_eq_table (df : DF) (key value id : String)
    (idCol keyCol valCol : Column)
    (hid : df.cols.lookup id = some idCol)
    (hkey : df.cols.lookup key = some keyCol)
    (hval : df.cols.lookup value = some valCol)
    (hnodup : (idCol.cells.zip keyCol.cells).Nodup)
    (hnotid : ∀ k ∈ keyCol.cells, cellLabel k ≠ id)
    (hdisj : ∀ k ∈ keyCol.cells, ∀ p ∈ df.cols,
      p.1 ≠ key → p.1 ≠ value → p.1 ≠ id → cellLabel k ≠ p.1) :
    pre_processing df key value id
      = PreResult.table ⟨idCol.cells.dedup,
          pivotCols idCol keyCol valCol ++ carryCols df key value id idCol⟩ := by
  have hmem : id ∉ (pivotCols idCol keyCol valCol).map Prod.fst := by
    rw [pivotCols_names]
    intro hmem
    rcases List.mem_map.mp hmem with ⟨k, hk, hkid⟩
    exact hnotid k (List.mem_dedup.mp hk) hkid
  simp only [pre_processing, hid, hkey, hval]
  rw [if_pos hnodup, if_neg hmem, mergeFrames_no_overlap _ _
    (pivot_carry_names_disjoint df key value id idCol keyCol valCol hdisj)]

lemma pre_processing_raised (df : DF) (key value id : String)
    (idCol keyCol valCol : Column) (k : Cell)
    (hid : df.cols.lookup id = some idCol)
    (hkey : df.cols.lookup key = some keyCol)
    (hval : df.cols.lookup value = some valCol)
    (hnodup : (idCol.cells.zip keyCol.cells).Nodup)
    (hk : k ∈ keyCol.cells) (hkid : cellLabel k = id) :
    pre_processing df key value id = PreResult.raised := by
  have hmem : id ∈ (pivotCols idCol keyCol valCol).map Prod.fst := by
    rw [pivotCols_names]
    exact List.mem_map.mpr ⟨k, List.mem_dedup.mpr hk, hkid⟩
  simp only [pre_processing, hid, hkey, hval]
  rw [if_pos hnodup, if_pos hmem]

end Lemmas

/-! Concrete frames and tables instantiating the theorems below. -/

/-- A long frame in which the (ID, key) pair (1, a) occurs twice. -/
def exDup : DF := ⟨[some "0", some "1"],
  [("ID", ⟨"object", [some "1", some "1"]⟩),
   ("K", ⟨"object", [some "a", some "a"]⟩),
   ("V", ⟨"object", [some "x", some "y"]⟩)]⟩

/-- A long frame whose only attribute name P coincides with the
passthrough column named P. -/
def exCollide : DF := ⟨[some "0"],
  [("ID", ⟨"object", [some "1"]⟩),
   ("K", ⟨"object", [some "P"]⟩),
   ("V", ⟨"object", [some "v"]⟩),
   ("P", ⟨"object", [some "p"]⟩)]⟩

/-- A long frame one of whose attribute names is literally ID, the name
of the id column itself. -/
def exIdClash : DF := ⟨[some "0"],
  [("ID", ⟨"object", [some "1"]⟩),
   ("K", ⟨"object", [some "ID"]⟩),
   ("V", ⟨"object", [some "v"]⟩)]⟩

/-- A long frame in which the first row of ID 1 has a missing Extra cell
and the second row carries the value z there. -/
def exFirst : DF := ⟨[some "0", some "1"],
  [("ID", ⟨"object", [some "1", some "1"]⟩),
   ("K", ⟨"object", [some "a", some "b"]⟩),
   ("V", ⟨"object", [some "x", some "y"]⟩),
   ("Extra", ⟨"object", [none, some "z"]⟩)]⟩

/-- A well-formed long frame: two ids, distinct (ID, key) pairs, one
passthrough column with a missing cell. -/
def exLong : DF := ⟨[some "0", some "1", some "2"],
  [("ID", ⟨"object", [some "1", some "1", some "2"]⟩),
   ("K", ⟨"object", [some "a", some "b", some "a"]⟩),
   ("V", ⟨"object", [some "x", some "y", some "z"]⟩),
   ("City", ⟨"object", [some "Zurich", none, some "Bern"]⟩)]⟩

/-- A one-entry translation table whose target value is not itself a key. -/
def exD : List (String × String) := [("blau", "Blue")]

/-- A translation table whose target values map to themselves. -/
def exDfix : List (String × String) := [("blau", "Blue"), ("Blue", "Blue")]

/-- A one-column frame holding the translatable value blau. -/
def exT : DF := ⟨[some "0"], [("c", ⟨"object", [some "blau"]⟩)]⟩

/-- A frame exercising translation: a translatable value, an untranslatable
one and a missing one. -/
def exT3 : DF := ⟨[some "0", some "1", some "2"],
  [("c", ⟨"object", [some "blau", some "rot", none]⟩)]⟩

/-- A one-column frame whose single cell is missing. -/
def exFill : DF := ⟨[some "0"], [("c0", ⟨"object", [none]⟩)]⟩

/-- A one-column frame holding the lower-case value blue. -/
def exC4df : DF := ⟨[some "0"], [("c0", ⟨"object", [some "blue"]⟩)]⟩

/-- A one-column frame with a single column a. -/
def exP : DF := ⟨[some "0"], [("a", ⟨"object", [some "x"]⟩)]⟩

/-- A two-entry specification whose first entry succeeds (renaming a to
a2) and whose second entry names the absent source b. -/
def exSpecAB : List (String × NormEntry) :=
  [("a2", ⟨some "a", "O", none⟩), ("b2", ⟨some "b", "O", none⟩)]

/-- A one-entry specification naming an absent source column. -/
def exSpecB : List (String × NormEntry) := [("b2", ⟨some "b", "O", none⟩)]

/-- A geocoding oracle that resolves Zurich and Bern and nothing else. -/
def geoEx : String → Option String :=
  fun s => if s = "Zurich" then some "ch" else if s = "Bern" then some "ch" else none

/-- A geocoding oracle that resolves nothing. -/
def geoNone : String → Option String := fun _ => none

/-- A frame with one location column, a repeated location and a second
distinct location. -/
def exCity : DF := ⟨[some "0", some "1", some "2"],
  [("City", ⟨"object", [some "Zurich", some "Zurich", some "Bern"]⟩)]⟩

/-! The claims. -/

/-- C5: an input table containing some (ID, key) pair more than once makes
`pre_processing` report an error and return no result: the pivot raises on
the duplicate index entry inside the try block, the exception is caught
and logged, and the function falls through without a return value (the
`caught` outcome). -/
theorem C5_duplicate_returns_none (df : DF) (key value id : String)
    (idCol keyCol : Column) (p : Cell × Cell)
    (hid : df.cols.lookup id = some idCol)
    (hkey : df.cols.lookup key = some keyCol)
    (hdup : (idCol.cells.zip keyCol.cells).Duplicate p) :
    pre_processing df key value id = PreResult.caught := by
  have hnd : ¬(idCol.cells.zip keyCol.cells).Nodup := hdup.not_nodup
  rcases hval : df.cols.lookup value with _ | valCol
  · simp [pre_processing, hid, hkey, hval]
  · simp only [pre_processing, hid, hkey, hval]
    rw [if_neg hnd]

/-- C5 witness: the duplicated pair (1, a) of `exDup` makes the reshape
return nothing. -/
theorem C5_duplicate_returns_none_witness :
    pre_processing exDup "K" "V" "ID" = PreResult.caught :=
  C5_duplicate_returns_none exDup "K" "V" "ID"
    ⟨"object", [some "1", some "1"]⟩ ⟨"object", [some "a", some "a"]⟩
    (some "1", some "a") (by decide) (by decide) (by decide)

/-- C2: the missing value of the target column is NOT replaced by the fill
constant. On a frame whose source column c0 holds one missing cell, the
entry `color: [c0, category]` produces a color column still holding the
missing cell, not the fill value null: `Series.fillna` is handed a dict
keyed by the column name, which it reads as a row-index label, so nothing
is filled (and the chained inplace call would not write back anyway). -/
theorem C2_fill_not_applied :
    normalize exFill [("color", ⟨some "c0", "category", none⟩)] "null" =
      some ⟨[some "0"], [("color", ⟨"category", [none]⟩)]⟩ ∧
    normalize exFill [("color", ⟨some "c0", "category", none⟩)] "null" ≠
      some ⟨[some "0"], [("color", ⟨"category", [some "null"]⟩)]⟩ := by
  exact ⟨by decide, by decide⟩

/-- C10: a two-element entry with an absent source makes `normalize`
return nothing when no column carries the target name (the closing fillna
line raises a KeyError), and succeed with the frame completely unchanged —
the existing column neither cast nor otherwise touched — when one does. -/
theorem C10_skip_entry (df : DF) (tgt dty fill : String) :
    normalize df [(tgt, ⟨none, dty, none⟩)] fill =
      if (df.cols.lookup tgt).isSome then some df else none := by
  by_cases h : (df.cols.lookup tgt).isSome
  · rw [if_pos h]
    simp [normalize, normStep, fillnaLine, h]
  · rw [if_neg h]
    simp [normalize, normStep, fillnaLine, h]

/-- C1 counterexample, two unique-pair inputs on which the claim fails:
when a distinct key value (here P) coincides with a passthrough column
name, the merge emits both columns with the suffixes _x and _y, so the
output column set is {P_x, P_y}, not (distinct key values) ∪ (passthrough
columns) = {P}; and when a distinct key value equals the id column name
(frame `exIdClash`), the merge — outside the try/except — raises the
uncaught index-level/column-label ambiguity error instead of returning a
wide table at all. -/
theorem C1_suffix_counterexample :
    (pre_processing exCollide "K" "V" "ID").frame.map (fun w => w.cols.map Prod.fst)
      = some ["P_x", "P_y"] ∧
    (pre_processing exCollide "K" "V" "ID").frame.map (fun w => w.cols.map Prod.fst)
      ≠ some ["P"] ∧
    pre_processing exIdClash "K" "V" "ID" = PreResult.raised := by
  exact ⟨by decide, by decide, by decide⟩

/-- C3 counterexample: with the table {blau: Blue} and fallback Other, one
translation turns blau into Blue, but a second translation with the same
table turns Blue into Other (Blue is a target value, not a key), so
repeated translation is not idempotent. -/
theorem C3_idempotence_counterexample :
    (translate exT "c" (some exD) "Other").map
        (fun o => (o.cols.lookup "c").map Column.cells)
      = some (some [some "Blue"]) ∧
    ((translate exT "c" (some exD) "Other").bind
        (fun o => translate o "c" (some exD) "Other")).map
        (fun o => (o.cols.lookup "c").map Column.cells)
      = some (some [some "Other"]) := by
  exact ⟨by decide, by decide⟩

/-- C6 (amended): on the reshape's success inputs (the hypotheses of the
amended C1, among them that no key value equals the id column name — the
merge would otherwise raise uncaught), the value carried into the wide
output for a passthrough column and an id is the first NON-MISSING cell
of that column among the rows bearing that id, in input row order
(missing when all such cells are missing) — not the cell of the first
row bearing the id, whose leading missing cell `GroupBy.first` skips
(see the counterexample). The last conjunct characterises the carried
value independently of the embedding's helper: a value is carried
exactly when some row bears the id and that value while every earlier
row bearing the id holds a missing cell. -/
theorem C6_carry_first_present (df : DF) (key value id n : String)
    (idCol keyCol valCol c : Column) (i : Cell)
    (hid : df.cols.lookup id = some idCol)
    (hkey : df.cols.lookup key = some keyCol)
    (hval : df.cols.lookup value = some valCol)
    (hik : id ≠ key) (hiv : id ≠ value) (hkv : key ≠ value)
    (hidp : ∀ cc ∈ idCol.cells, cc ≠ (none : Cell))
    (hkeyp : ∀ cc ∈ keyCol.cells, cc ≠ (none : Cell))
    (hnodup : (idCol.cells.zip keyCol.cells).Nodup)
    (hnotid : ∀ k ∈ keyCol.cells, cellLabel k ≠ id)
    (hdisj : ∀ k ∈ keyCol.cells, ∀ p ∈ df.cols,
      p.1 ≠ key → p.1 ≠ value → p.1 ≠ id → cellLabel k ≠ p.1)
    (hn : df.cols.lookup n = some c)
    (hnk : n ≠ key) (hnv : n ≠ value) (hni : n ≠ id)
    (hi : i ∈ idCol.cells) :
    ∃ out, pre_processing df key value id = PreResult.table out ∧
      wideCell out n i = some (firstPresent (cellsOfId idCol.cells c.cells i)) ∧
      (∀ v, firstPresent (cellsOfId idCol.cells c.cells i) = some v ↔
        ∃ j, (idCol.cells.zip c.cells).get? j = some (i, some v) ∧
          ∀ m, m < j → ∀ cc, (idCol.cells.zip c.cells).get? m = some (i, cc) →
            cc = none) := by
  refine ⟨⟨idCol.cells.dedup,
      pivotCols idCol keyCol valCol ++ carryCols df key value id idCol⟩,
    pre_processing_eq_table df key value id idCol keyCol valCol hid hkey hval hnodup
      hnotid hdisj,
    ?_, ?_⟩
  · have hpivotlk : (pivotCols idCol keyCol valCol).lookup n = none := by
      rw [lookup_eq_none_iff, pivotCols_names]
      intro hmem
      rcases List.mem_map.mp hmem with ⟨k, hk, hkn⟩
      exact hdisj k (List.mem_dedup.mp hk) (n, c) (lookup_mem hn) hnk hnv hni hkn
    have hcarrylk : (carryCols df key value id idCol).lookup n
        = some ⟨c.dtype, idCol.cells.dedup.map
            (fun i2 => firstPresent (cellsOfId idCol.cells c.cells i2))⟩ := by
      have hm := lookup_map_preserve
        (df.cols.filter (fun p => p.1 ≠ key ∧ p.1 ≠ value ∧ p.1 ≠ id))
        (fun _ c2 => (⟨c2.dtype, idCol.cells.dedup.map
          (fun i2 => firstPresent (cellsOfId idCol.cells c2.cells i2))⟩ : Column)) n
      have hf := lookup_filter_key df.cols
        (fun m => decide (m ≠ key ∧ m ≠ value ∧ m ≠ id)) n
      rw [if_pos (by simp [hnk, hnv, hni])] at hf
      show (carryCols df key value id idCol).lookup n = _
      unfold carryCols
      rw [hm, hf, hn]
      rfl
    have hout : ((⟨idCol.cells.dedup,
        pivotCols idCol keyCol valCol ++ carryCols df key value id idCol⟩ : DF)).cols.lookup n
        = some ⟨c.dtype, idCol.cells.dedup.map
            (fun i2 => firstPresent (cellsOfId idCol.cells c.cells i2))⟩ := by
      show ((pivotCols idCol keyCol valCol ++ carryCols df key value id idCol).lookup n) = _
      rw [lookup_append, hpivotlk, hcarrylk]
    unfold wideCell
    rw [hout]
    show (idCol.cells.dedup.zip (idCol.cells.dedup.map
        (fun i2 => firstPresent (cellsOfId idCol.cells c.cells i2)))).lookup i = _
    rw [lookup_zip_map _ _ i (List.mem_dedup.mpr hi)]
  · intro v
    show firstPresent ((idCol.cells.zip c.cells).filterMap
        (fun q => if q.1 = i then some q.2 else none)) = some v ↔ _
    exact firstPresent_eq_some_iff i v (idCol.cells.zip c.cells)

/-- C6 witness: on `exFirst` (ID column [1, 1], Extra column
[missing, z]) the value carried for ID 1 in column Extra is the first
non-missing cell, z. -/
theorem C6_carry_first_present_witness :
    ∃ out, pre_processing exFirst "K" "V" "ID" = PreResult.table out ∧
      wideCell out "Extra" (some "1")
        = some (firstPresent (cellsOfId [some "1", some "1"] [none, some "z"] (some "1"))) ∧
      firstPresent (cellsOfId [some "1", some "1"] [none, some "z"] (some "1"))
        = some "z" := by
  obtain ⟨out, h1, h2, -⟩ :=
    C6_carry_first_present exFirst "K" "V" "ID" "Extra"
      ⟨"object", [some "1", some "1"]⟩ ⟨"object", [some "a", some "b"]⟩
      ⟨"object", [some "x", some "y"]⟩ ⟨"object", [none, some "z"]⟩ (some "1")
      (by decide) (by decide) (by decide) (by decide) (by decide) (by decide)
      (by decide) (by decide) (by decide) (by decide) (by decide) (by decide)
      (by decide) (by decide) (by decide) (by decide)
  exact ⟨out, h1, h2, by decide⟩

/-- C6 counterexample: in `exFirst` the first row bearing ID 1 has a
missing Extra cell, yet the wide output carries the value z of the second
row — `GroupBy.first` takes the first non-missing value, not the value of
the first row. -/
theorem C6_first_row_counterexample :
    (exFirst.cols.lookup "ID").map Column.cells = some [some "1", some "1"] ∧
    (exFirst.cols.lookup "Extra").map Column.cells = some [none, some "z"] ∧
    (pre_processing exFirst "K" "V" "ID").frame.bind (fun w => wideCell w "Extra" (some "1"))
      = some (some "z") := by
  exact ⟨by decide, by decide, by decide⟩

/-- C8 (amended): the four operations catch the failures of their try
blocks, log them, and return nothing rather than raising, and the
returned value is either a fully-processed table or nothing — with one
uncaught exception path: reshape's merge line sits in the `else:` block,
outside its try/except, and raises to the caller when a distinct key
value names the id column. On the caught failures, `pre_processing`
builds fresh frames and `translate` and `get_country_codes` raise before
their single assignment, leaving the input untouched; `normalize`,
however, mutates the input entry by entry, so its failing calls leave
the mutations of the successfully processed prefix observable in the
caller's frame (see the counterexample). -/
theorem C8_failure_policy :
    (∀ df : DF, ∀ col fill, translate df col none fill = none) ∧
    (∀ df col d fill, df.cols.lookup col = none →
      translate df col (some d) fill = none ∧ translatePost df col (some d) fill = df) ∧
    (∀ geo df col cn, df.cols.lookup col = none →
      get_country_codes geo df col cn = none ∧ gccPost geo df col cn = df) ∧
    (∀ geo df col cn c v, df.cols.lookup col = some c → some v ∈ c.cells →
      geo v = none →
      get_country_codes geo df col cn = none ∧ gccPost geo df col cn = df) ∧
    (∀ df key value id idCol keyCol, df.cols.lookup id = some idCol →
      df.cols.lookup key = some keyCol → ¬(idCol.cells.zip keyCol.cells).Nodup →
      pre_processing df key value id = PreResult.caught) ∧
    (∀ df key value id idCol keyCol valCol k,
      df.cols.lookup id = some idCol → df.cols.lookup key = some keyCol →
      df.cols.lookup value = some valCol → (idCol.cells.zip keyCol.cells).Nodup →
      k ∈ keyCol.cells → cellLabel k = id →
      pre_processing df key value id = PreResult.raised) ∧
    (∀ fill df t e rest, normStep fill df t e = none →
      normalize df ((t, e) :: rest) fill = none ∧
      normalizePost df ((t, e) :: rest) fill = df) ∧
    (∀ fill df t e rest d, normStep fill df t e = some d →
      normalize df ((t, e) :: rest) fill = normalize d rest fill ∧
      normalizePost df ((t, e) :: rest) fill = normalizePost d rest fill) := by
  refine ⟨fun df col fill => rfl, ?_, ?_, ?_, ?_, ?_, ?_, ?_⟩
  · intro df col d fill h
    have ht : translate df col (some d) fill = none := by
      simp only [translate, h]
    refine ⟨ht, ?_⟩
    unfold translatePost
    rw [ht]
    rfl
  · intro geo df col cn h
    have hg : get_country_codes geo df col cn = none := by
      simp only [get_country_codes, h]
    refine ⟨hg, ?_⟩
    unfold gccPost
    rw [hg]
    rfl
  · intro geo df col cn c v hcol hv hnone
    have hloop : (gccLoop geo c.cells.dedup).2 = none :=
      gccLoop_none_of_mem_some (List.mem_dedup.mpr hv) hnone
    have hg : get_country_codes geo df col cn = none := by
      simp only [get_country_codes, hcol, hloop]
    refine ⟨hg, ?_⟩
    unfold gccPost
    rw [hg]
    rfl
  · intro df key value id idCol keyCol hid hkey hnd
    rcases hval : df.cols.lookup value with _ | valCol
    · simp [pre_processing, hid, hkey, hval]
    · simp only [pre_processing, hid, hkey, hval]
      rw [if_neg hnd]
  · intro df key value id idCol keyCol valCol k hid hkey hval hnodup hk hkid
    exact pre_processing_raised df key value id idCol keyCol valCol k
      hid hkey hval hnodup hk hkid
  · intro fill df t e rest h
    constructor
    · show (match normStep fill df t e with
            | none => none
            | some d => normalize d rest fill) = none
      rw [h]
    · show (match normStep fill df t e with
            | none => df
            | some d => normalizePost d rest fill) = df
      rw [h]
  · intro fill df t e rest d h
    constructor
    · show (match normStep fill df t e with
            | none => none
            | some d2 => normalize d2 rest fill) = normalize d rest fill
      rw [h]
    · show (match normStep fill df t e with
            | none => df
            | some d2 => normalizePost d2 rest fill) = normalizePost d rest fill
      rw [h]

/-- C8 witness: the failure policy at concrete inputs — a missing
translation file, a missing translated column, an unresolvable location,
a duplicated (ID, key) pair and a missing normalization source each
return nothing, with the caller's frame untouched by the failing
translate, resolver and normalize calls; and the attribute name ID of
`exIdClash`, clashing with the id column name, makes the reshape's merge
raise uncaught. -/
theorem C8_failure_policy_witness :
    translate exT "c" none "Other" = none ∧
    translate exT "zz" (some exD) "Other" = none ∧
    translatePost exT "zz" (some exD) "Other" = exT ∧
    get_country_codes geoNone exCity "City" "country" = none ∧
    gccPost geoNone exCity "City" "country" = exCity ∧
    pre_processing exDup "K" "V" "ID" = PreResult.caught ∧
    pre_processing exIdClash "K" "V" "ID" = PreResult.raised ∧
    normalize exP exSpecB "null" = none ∧
    normalizePost exP exSpecB "null" = exP := by
  obtain ⟨h1, h2, -, h4, h5, h5r, h6, -⟩ := C8_failure_policy
  have hgcc := h4 geoNone exCity "City" "country"
    ⟨"object", [some "Zurich", some "Zurich", some "Bern"]⟩ "Zurich"
    (by decide) (by decide) rfl
  have hnorm := h6 "null" exP "b2" ⟨some "b", "O", none⟩ [] (by decide)
  exact ⟨h1 exT "c" "Other",
    (h2 exT "zz" exD "Other" (by decide)).1,
    (h2 exT "zz" exD "Other" (by decide)).2,
    hgcc.1, hgcc.2,
    h5 exDup "K" "V" "ID" ⟨"object", [some "1", some "1"]⟩
      ⟨"object", [some "a", some "a"]⟩ (by decide) (by decide) (by decide),
    h5r exIdClash "K" "V" "ID" ⟨"object", [some "1"]⟩ ⟨"object", [some "ID"]⟩
      ⟨"object", [some "v"]⟩ (some "ID") (by decide) (by decide) (by decide)
      (by decide) (by decide) (by decide),
    hnorm.1, hnorm.2⟩

/-- C8 counterexample: on a specification whose first entry succeeds
(renaming a to a2) and whose second entry names an absent source,
`normalize` returns nothing, yet the caller's frame object has been
mutated by the successful first entry — a partially-applied outcome
observable to the caller. -/
theorem C8_partial_mutation_counterexample :
    normalize exP exSpecAB "null" = none ∧
    normalizePost exP exSpecAB "null" = ⟨[some "0"], [("a2", ⟨"O", [some "x"]⟩)]⟩ ∧
    normalizePost exP exSpecAB "null" ≠ exP := by
  exact ⟨by decide, by decide, by decide⟩

/-- C1 (amended): on a long frame with id, key and value columns of
pairwise-distinct names, with id and key cells present, with pairwise
unique (id, key) pairs, in which no distinct key value names a
passthrough column (otherwise the merge emits the colliding label twice
with the suffixes _x and _y) and no distinct key value equals the id
column name (otherwise the merge, which runs outside the try/except,
raises the index-level/column-label ambiguity error uncaught — both
corners in the counterexample), `pre_processing` returns a wide table
with exactly one row per distinct id (its index is duplicate-free, lists
exactly the distinct ids, and every column has one cell per index entry)
and with column labels exactly the distinct key values followed by the
passthrough column names — the input columns other than the id, key and
value columns. -/
theorem C1_reshape_shape (df : DF) (key value id : String)
    (idCol keyCol valCol : Column)
    (hid : df.cols.lookup id = some idCol)
    (hkey : df.cols.lookup key = some keyCol)
    (hval : df.cols.lookup value = some valCol)
    (hik : id ≠ key) (hiv : id ≠ value) (hkv : key ≠ value)
    (hidp : ∀ c ∈ idCol.cells, c ≠ (none : Cell))
    (hkeyp : ∀ c ∈ keyCol.cells, c ≠ (none : Cell))
    (hnodup : (idCol.cells.zip keyCol.cells).Nodup)
    (hnotid : ∀ k ∈ keyCol.cells, cellLabel k ≠ id)
    (hdisj : ∀ k ∈ keyCol.cells, ∀ p ∈ df.cols,
      p.1 ≠ key → p.1 ≠ value → p.1 ≠ id → cellLabel k ≠ p.1) :
    ∃ out, pre_processing df key value id = PreResult.table out ∧
      out.index = idCol.cells.dedup ∧
      out.index.Nodup ∧
      (∀ i, i ∈ out.index ↔ i ∈ idCol.cells) ∧
      (∀ p ∈ out.cols, p.2.cells.length = out.index.length) ∧
      out.cols.map Prod.fst
        = keyCol.cells.dedup.map cellLabel
          ++ (df.cols.map Prod.fst).filter (fun m => m ≠ key ∧ m ≠ value ∧ m ≠ id) := by
  refine ⟨⟨idCol.cells.dedup,
      pivotCols idCol keyCol valCol ++ carryCols df key value id idCol⟩,
    pre_processing_eq_table df key value id idCol keyCol valCol hid hkey hval hnodup
      hnotid hdisj,
    rfl, List.nodup_dedup _, fun i => List.mem_dedup, ?_, ?_⟩
  · intro p hp
    rcases List.mem_append.mp hp with hp | hp
    · rcases List.mem_map.mp hp with ⟨k, hk, rfl⟩
      exact List.length_map _ _
    · rcases List.mem_map.mp hp with ⟨q, hq, rfl⟩
      exact List.length_map _ _
  · rw [List.map_append, pivotCols_names, carryCols_names]

/-- C1 witness: the three-row frame `exLong` (ids 1, 1, 2; keys a, b, a;
a passthrough City column) reshapes into a frame with one row per
distinct id and the columns of the distinct keys followed by City. -/
theorem C1_reshape_shape_witness :
    ∃ out, pre_processing exLong "K" "V" "ID" = PreResult.table out ∧
      out.index = [some "1", some "2"] ∧
      out.index.Nodup ∧
      out.cols.map Prod.fst = ["b", "a", "City"] := by
  obtain ⟨out, h1, h2, h3, -, -, h6⟩ :=
    C1_reshape_shape exLong "K" "V" "ID"
      ⟨"object", [some "1", some "1", some "2"]⟩
      ⟨"object", [some "a", some "b", some "a"]⟩
      ⟨"object", [some "x", some "y", some "z"]⟩
      (by decide) (by decide) (by decide) (by decide) (by decide) (by decide)
      (by decide) (by decide) (by decide) (by decide) (by decide)
  exact ⟨out, h1, h2.trans (by decide), h3, h6.trans (by decide)⟩

/-- C3 (amended): every value of the translated column is a target value
of the translation table or the fallback, and values present in the table
map deterministically to their targets; but repeated translation is
idempotent only under a proviso — every target value of the table is
itself a key mapping to itself and the fallback is not a key — because a
second pass sends any value outside the key set to the fallback (see the
counterexample). Hypotheses: the translated column exists (otherwise the
call fails) and the frame's column labels are pairwise distinct. -/
theorem C3_translate_amended (df : DF) (col fill : String)
    (d : List (String × String)) (c : Column)
    (hcol : df.cols.lookup col = some c)
    (hnames : (df.cols.map Prod.fst).Nodup) :
    ∃ out oc, translate df col (some d) fill = some out ∧
      out.cols.lookup col = some oc ∧
      (∀ cc ∈ oc.cells, ∃ v, cc = some v ∧ ((∃ k, (k, v) ∈ d) ∨ v = fill)) ∧
      (∀ i v t, c.cells.get? i = some (some v) → d.lookup v = some t →
        oc.cells.get? i = some (some t)) ∧
      ((∀ p ∈ d, d.lookup p.2 = some p.2) → d.lookup fill = none →
        translate out col (some d) fill = some out) := by
  have htr : translate df col (some d) fill
      = some (setCol df col ⟨"object", c.cells.map (transMap d fill)⟩) := by
    unfold translate
    rw [hcol]
  refine ⟨setCol df col ⟨"object", c.cells.map (transMap d fill)⟩,
    ⟨"object", c.cells.map (transMap d fill)⟩, htr,
    lookup_setCol_self df col _, ?_, ?_, ?_⟩
  · intro cc hcc
    rcases List.mem_map.mp hcc with ⟨src, _, hmap⟩
    rcases src with _ | v
    · exact ⟨fill, hmap.symm, Or.inr rfl⟩
    · rcases hlk : d.lookup v with _ | t
      · refine ⟨fill, ?_, Or.inr rfl⟩
        rw [← hmap]
        simp [transMap, hlk]
      · refine ⟨t, ?_, Or.inl ⟨v, lookup_mem hlk⟩⟩
        rw [← hmap]
        simp [transMap, hlk]
  · intro i v t hi hlk
    rw [List.get?_map, hi]
    simp [transMap, hlk]
  · intro hfix hfill
    have hpoint : ∀ cc, transMap d fill (transMap d fill cc) = transMap d fill cc := by
      intro cc
      rcases cc with _ | v
      · simp [transMap, hfill]
      · rcases hlk : d.lookup v with _ | t
        · simp [transMap, hlk, hfill]
        · have := hfix (v, t) (lookup_mem hlk)
          simp only [transMap, hlk]
          simp [transMap, this]
    have hcells : (c.cells.map (transMap d fill)).map (transMap d fill)
        = c.cells.map (transMap d fill) := by
      rw [List.map_map]
      apply List.map_congr_left
      intro a _
      exact hpoint a
    unfold translate
    rw [lookup_setCol_self df col ⟨"object", c.cells.map (transMap d fill)⟩]
    show some (setCol (setCol df col ⟨"object", c.cells.map (transMap d fill)⟩) col
        ⟨"object", (c.cells.map (transMap d fill)).map (transMap d fill)⟩)
      = some (setCol df col ⟨"object", c.cells.map (transMap d fill)⟩)
    rw [hcells, setCol_same]
    · rw [setCol_names_of_isSome df col _ (by simp [hcol])]
      exact hnames
    · exact lookup_setCol_self df col _

/-- C3 witness: on the frame `exT3` (a translatable value, an
untranslatable one and a missing one) with the self-closed table
`exDfix`, translation yields the column [Blue, Other, Other] and a second
translation with the same table returns the same frame. -/
theorem C3_translate_amended_witness :
    translate exT3 "c" (some exDfix) "Other"
      = some ⟨[some "0", some "1", some "2"],
          [("c", ⟨"object", [some "Blue", some "Other", some "Other"]⟩)]⟩ ∧
    translate ⟨[some "0", some "1", some "2"],
          [("c", ⟨"object", [some "Blue", some "Other", some "Other"]⟩)]⟩
        "c" (some exDfix) "Other"
      = some ⟨[some "0", some "1", some "2"],
          [("c", ⟨"object", [some "Blue", some "Other", some "Other"]⟩)]⟩ := by
  obtain ⟨out, oc, h1, -, -, -, h5⟩ :=
    C3_translate_amended exT3 "c" "Other" exDfix
      ⟨"object", [some "blau", some "rot", none]⟩ (by decide) (by decide)
  have hout : out = ⟨[some "0", some "1", some "2"],
      [("c", ⟨"object", [some "Blue", some "Other", some "Other"]⟩)]⟩ := by
    have hcomp : translate exT3 "c" (some exDfix) "Other"
        = some ⟨[some "0", some "1", some "2"],
            [("c", ⟨"object", [some "Blue", some "Other", some "Other"]⟩)]⟩ := by
      decide
    rw [h1] at hcomp
    exact Option.some.inj hcomp
  refine ⟨hout ▸ h1, ?_⟩
  have := h5 (by decide) (by decide)
  rw [hout] at this
  exact this

/-- C9 (amended): the only effect of `translate` beyond its returned
table is that the table object passed in is mutated in place into that
same returned table: on success the caller's frame equals the returned
frame, whose index, column labels and every column other than the
translated one are unchanged; a failing call leaves the input untouched. -/
theorem C9_translate_effect (df : DF) (col : String)
    (trans : Option (List (String × String))) (fill : String) :
    (∀ out, translate df col trans fill = some out →
      translatePost df col trans fill = out ∧
      out.index = df.index ∧
      out.cols.map Prod.fst = df.cols.map Prod.fst ∧
      (∀ n, n ≠ col → out.cols.lookup n = df.cols.lookup n)) ∧
    (translate df col trans fill = none → translatePost df col trans fill = df) := by
  constructor
  · intro out h
    have hpost : translatePost df col trans fill = out := by
      unfold translatePost
      rw [h]
      rfl
    rcases trans with _ | d
    · cases h
    · rcases hcol : df.cols.lookup col with _ | c
      · unfold translate at h
        rw [hcol] at h
        cases h
      · unfold translate at h
        rw [hcol] at h
        injection h with h
        subst h
        exact ⟨hpost, setCol_index df col _,
          setCol_names_of_isSome df col _ (by simp [hcol]),
          fun n hn => lookup_setCol_ne df _ hn⟩
  · intro h
    unfold translatePost
    rw [h]
    rfl

/-- C9 witness: on the concrete frame `exT` the caller's object after the
call equals the returned, translated frame, and its index and labels are
those of the input. -/
theorem C9_translate_effect_witness :
    translatePost exT "c" (some exD) "Other"
      = ⟨[some "0"], [("c", ⟨"object", [some "Blue"]⟩)]⟩ ∧
    (⟨[some "0"], [("c", ⟨"object", [some "Blue"]⟩)]⟩ : DF).index = exT.index ∧
    (⟨[some "0"], [("c", ⟨"object", [some "Blue"]⟩)]⟩ : DF).cols.map Prod.fst
      = exT.cols.map Prod.fst := by
  obtain ⟨h1, h2, h3, -⟩ := (C9_translate_effect exT "c" (some exD) "Other").1
    ⟨[some "0"], [("c", ⟨"object", [some "Blue"]⟩)]⟩ (by decide)
  exact ⟨h1, h2, h3⟩

/-- C4: a specification entry naming a source column makes `normalize`
first apply the optional transform to the source column in place, then
cast the (possibly transformed) source cells to the target dtype and
assign them under the target name; when target and source names differ,
the source column is absent from the frame the entry leaves behind; and
with the upper-case transform every value of the target column is fully
upper-case (a fixed point of upper-casing). The entry is stated at the
head of the remaining specification, which is every entry at its turn. -/
theorem C4_source_entry (df out : DF) (rest : List (String × NormEntry))
    (fill tgt src dty : String) (tf : Option (Cell → Option Cell))
    (h : normalize df ((tgt, ⟨some src, dty, tf.map NormThird.transform⟩) :: rest) fill
        = some out) :
    ∃ oldCol tcells mid,
      df.cols.lookup src = some oldCol ∧
      (match tf with
       | none => some oldCol.cells
       | some f => oldCol.cells.mapM f) = some tcells ∧
      normStep fill df tgt ⟨some src, dty, tf.map NormThird.transform⟩ = some mid ∧
      normalize mid rest fill = some out ∧
      mid.index = df.index ∧
      mid.cols.lookup tgt = some ⟨dty, tcells⟩ ∧
      (tgt ≠ src → mid.cols.lookup src = none) ∧
      (tf = some upperTransform → ∀ v, some v ∈ tcells → pyUpper v = v) := by
  rcases normalize_cons.mp h with ⟨mid, hstep, hrest⟩
  rcases tf with _ | f
  · simp only [Option.map_none'] at hstep ⊢
    rcases hold : df.cols.lookup src with _ | oldCol
    · rw [normStep_source_plain] at hstep
      simp only [hold] at hstep
      exact Option.noConfusion hstep
    · simp only [normStep_source_plain, hold] at hstep
      have hltgt : ((if tgt = src then setCol df tgt ⟨dty, oldCol.cells⟩
          else dropCol (setCol df tgt ⟨dty, oldCol.cells⟩) src).cols.lookup tgt)
          = some ⟨dty, oldCol.cells⟩ := by
        by_cases hts : tgt = src
        · rw [if_pos hts]
          exact lookup_setCol_self df tgt _
        · rw [if_neg hts]
          rw [lookup_dropCol_ne _ hts]
          exact lookup_setCol_self df tgt _
      rw [fillnaLine_of_isSome (by rw [hltgt]; rfl)] at hstep
      injection hstep with hstep
      refine ⟨oldCol, oldCol.cells, mid, rfl, rfl, ?_, hrest, ?_, ?_, ?_, ?_⟩
      · simp only [normStep_source_plain, hold]
        rw [fillnaLine_of_isSome (by rw [hltgt]; rfl), hstep]
      · rw [← hstep]
        by_cases hts : tgt = src
        · rw [if_pos hts, setCol_index]
        · rw [if_neg hts, dropCol_index, setCol_index]
      · rw [← hstep]
        exact hltgt
      · intro hts
        rw [← hstep, if_neg hts]
        exact lookup_dropCol_self _ src
      · intro heq
        cases heq
  · simp only [Option.map_some'] at hstep ⊢
    rcases hold : df.cols.lookup src with _ | oldCol
    · rw [normStep_source_transform] at hstep
      simp only [hold] at hstep
      exact Option.noConfusion hstep
    · rcases hmm : oldCol.cells.mapM f with _ | tcells
      · rw [normStep_source_transform] at hstep
        simp only [hold, hmm] at hstep
        exact Option.noConfusion hstep
      · simp only [normStep_source_transform, hold, hmm] at hstep
        have hltgt : ((if tgt = src
              then setCol (setCol df src ⟨"object", tcells⟩) tgt ⟨dty, tcells⟩
              else dropCol (setCol (setCol df src ⟨"object", tcells⟩) tgt ⟨dty, tcells⟩)
                src).cols.lookup tgt)
            = some ⟨dty, tcells⟩ := by
          by_cases hts : tgt = src
          · rw [if_pos hts]
            exact lookup_setCol_self _ tgt _
          · rw [if_neg hts]
            rw [lookup_dropCol_ne _ hts]
            exact lookup_setCol_self _ tgt _
        rw [fillnaLine_of_isSome (by rw [hltgt]; rfl)] at hstep
        injection hstep with hstep
        refine ⟨oldCol, tcells, mid, rfl, hmm, ?_, hrest, ?_, ?_, ?_, ?_⟩
        · simp only [normStep_source_transform, hold, hmm]
          rw [fillnaLine_of_isSome (by rw [hltgt]; rfl), hstep]
        · rw [← hstep]
          by_cases hts : tgt = src
          · rw [if_pos hts, setCol_index, setCol_index]
          · rw [if_neg hts, dropCol_index, setCol_index, setCol_index]
        · rw [← hstep]
          exact hltgt
        · intro hts
          rw [← hstep, if_neg hts]
          exact lookup_dropCol_self _ src
        · intro heq v hv
          injection heq with heq
          subst heq
          rcases mapM_option_mem upperTransform hmm (some v) hv with ⟨a, -, hfa⟩
          rcases a with _ | s
          · cases hfa
          · simp only [upperTransform, Option.some.injEq] at hfa
            rw [← hfa]
            exact pyUpper_idem s

/-- C4 witness: the entry `color: [c0, category, upper]` on a frame whose
c0 column holds blue yields a category column color with the value BLUE,
drops c0, and BLUE is a fixed point of upper-casing. -/
theorem C4_source_entry_witness :
    normalize exC4df [("color", ⟨some "c0", "category",
        some (NormThird.transform upperTransform)⟩)] "null"
      = some ⟨[some "0"], [("color", ⟨"category", [some "BLUE"]⟩)]⟩ ∧
    (⟨[some "0"], [("color", ⟨"category", [some "BLUE"]⟩)]⟩ : DF).cols.lookup "c0"
      = none ∧
    pyUpper "BLUE" = "BLUE" := by
  have h : normalize exC4df [("color", ⟨some "c0", "category",
      (some upperTransform).map NormThird.transform⟩)] "null"
      = some ⟨[some "0"], [("color", ⟨"category", [some "BLUE"]⟩)]⟩ := by
    decide
  obtain ⟨oldCol, tcells, mid, -, hmm, -, hrest, -, hktgt, hksrc, hupper⟩ :=
    C4_source_entry exC4df ⟨[some "0"], [("color", ⟨"category", [some "BLUE"]⟩)]⟩
      [] "null" "color" "c0" "category" (some upperTransform) h
  have hmid : mid = ⟨[some "0"], [("color", ⟨"category", [some "BLUE"]⟩)]⟩ := by
    have : normalize mid [] "null" = some mid := rfl
    rw [this] at hrest
    exact Option.some.inj hrest
  refine ⟨h, ?_, ?_⟩
  · rw [← hmid]
    exact hksrc (by decide)
  · have htc : tcells = [some "BLUE"] := by
      have := hktgt
      rw [hmid] at this
      have hl : (⟨[some "0"], [("color", ⟨"category", [some "BLUE"]⟩)]⟩ : DF).cols.lookup "color"
          = some ⟨"category", [some "BLUE"]⟩ := by decide
      rw [hl] at this
      injection this with this
      injection this with h1 h2
      exact h2.symm
    exact hupper rfl "BLUE" (by rw [htc]; exact List.mem_cons_self _ _)

/-- C7: with the geocoding collaborator modelled as the oracle `geo`,
`get_country_codes` adds one column (labelled `cn`, the index and every
other column unchanged) whose value in every row is the upper-cased code
the collaborator returns for that row's location; the collaborator is
consulted exactly once per distinct location value (the query log is
duplicate-free and holds exactly the locations appearing in the column);
and a collaborator failure or unresolvable address for any distinct
location — a missing location included — yields no result. -/
theorem C7_country_codes (geo : String → Option String) (df : DF) (col cn : String)
    (c : Column)
    (hcol : df.cols.lookup col = some c)
    (hcn : df.cols.lookup cn = none) :
    (∀ out, get_country_codes geo df col cn = some out →
      out.index = df.index ∧
      out.cols.map Prod.fst = df.cols.map Prod.fst ++ [cn] ∧
      (∀ n, n ≠ cn → out.cols.lookup n = df.cols.lookup n) ∧
      (∃ cc, out.cols.lookup cn = some ⟨"object", cc⟩ ∧
        cc.length = c.cells.length ∧
        (∀ cell ∈ c.cells, cell ≠ none) ∧
        (∀ i v, c.cells.get? i = some (some v) →
          ∃ code, geo v = some code ∧ cc.get? i = some (some (pyUpper code)))) ∧
      ((gccLoop geo c.cells.dedup).1.Nodup ∧
        ∀ v, v ∈ (gccLoop geo c.cells.dedup).1 ↔ some v ∈ c.cells)) ∧
    (∀ v, some v ∈ c.cells → geo v = none → get_country_codes geo df col cn = none) ∧
    ((none : Cell) ∈ c.cells → get_country_codes geo df col cn = none) := by
  refine ⟨?_, ?_, ?_⟩
  · intro out h
    simp only [get_country_codes, hcol] at h
    rcases hdict : (gccLoop geo c.cells.dedup).2 with _ | dict
    · rw [hdict] at h
      exact Option.noConfusion h
    · rw [hdict] at h
      injection h with h
      subst h
      refine ⟨setCol_index df cn _, setCol_names_of_none df cn _ hcn,
        fun n hn => lookup_setCol_ne df _ hn, ?_, ?_⟩
      · refine ⟨c.cells.map (fun cc => dict.lookup cc),
          lookup_setCol_self df cn _, List.length_map _ _, ?_, ?_⟩
        · intro cell hcell hne
          subst hne
          have := @gccLoop_none_of_mem_none geo c.cells.dedup (List.mem_dedup.mpr hcell)
          rw [this] at hdict
          exact Option.noConfusion hdict
        · intro i v hi
          have hvmem : (some v : Cell) ∈ c.cells := List.get?_mem hi
          rcases gccLoop_dict_lookup hdict v (List.mem_dedup.mpr hvmem) with
            ⟨code, hgc, hlk⟩
          refine ⟨code, hgc, ?_⟩
          rw [List.get?_map, hi]
          simp [hlk]
      · constructor
        · rw [gccLoop_queries_of_some hdict]
          refine List.Nodup.filterMap ?_ (List.nodup_dedup c.cells)
          intro a a2 b hb hb2
          rcases a with _ | x
          · cases hb
          · rcases a2 with _ | y
            · cases hb2
            · cases hb
              cases hb2
              rfl
        · intro v
          rw [gccLoop_queries_of_some hdict]
          rw [List.mem_filterMap]
          constructor
          · rintro ⟨a, ha, hav⟩
            cases hav
            exact List.mem_dedup.mp ha
          · intro hv
            exact ⟨some v, List.mem_dedup.mpr hv, rfl⟩
  · intro v hv hg
    have hloop := gccLoop_none_of_mem_some (List.mem_dedup.mpr hv) hg
    simp only [get_country_codes, hcol, hloop]
  · intro hv
    have hloop := @gccLoop_none_of_mem_none geo c.cells.dedup (List.mem_dedup.mpr hv)
    simp only [get_country_codes, hcol, hloop]

/-- C7 witness: on the location column [Zurich, Zurich, Bern] with an
oracle resolving both cities to ch, the resolver appends a country column
holding CH in every row and the query log is duplicate-free. -/
theorem C7_country_codes_witness :
    get_country_codes geoEx exCity "City" "country"
      = some ⟨[some "0", some "1", some "2"],
          [("City", ⟨"object", [some "Zurich", some "Zurich", some "Bern"]⟩),
           ("country", ⟨"object", [some "CH", some "CH", some "CH"]⟩)]⟩ ∧
    (⟨[some "0", some "1", some "2"],
        [("City", ⟨"object", [some "Zurich", some "Zurich", some "Bern"]⟩),
         ("country", ⟨"object", [some "CH", some "CH", some "CH"]⟩)] ⟩ : DF).cols.map
        Prod.fst = ["City", "country"] ∧
    (gccLoop geoEx (⟨"object",
        [some "Zurich", some "Zurich", some "Bern"]⟩ : Column).cells.dedup).1.Nodup := by
  have h : get_country_codes geoEx exCity "City" "country"
      = some ⟨[some "0", some "1", some "2"],
          [("City", ⟨"object", [some "Zurich", some "Zurich", some "Bern"]⟩),
           ("country", ⟨"object", [some "CH", some "CH", some "CH"]⟩)]⟩ := by
    decide
  obtain ⟨-, h2, -, -, h5, -⟩ :=
    (C7_country_codes geoEx exCity "City" "country"
      ⟨"object", [some "Zurich", some "Zurich", some "Bern"]⟩
      (by decide) (by decide)).1 _ h
  exact ⟨h, h2.trans (by decide), h5⟩

/-- C9 counterexample: a successful `translate` call mutates the table
object passed in — afterwards the caller's frame holds Blue in place of
blau — so the call has an effect beyond its returned table. -/
theorem C9_mutation_counterexample :
    translatePost exT "c" (some exD) "Other" ≠ exT ∧
    translatePost exT "c" (some exD) "Other"
      = ⟨[some "0"], [("c", ⟨"object", [some "Blue"]⟩)]⟩ := by
  exact ⟨by decide, by decide⟩

end OneDot
